import Mathlib

/-!
Verification of the angle-indexing core of `btf_helper/btfzip.py` (class
`Btfzip`).

Strings are modelled as `List Char`.  Python's `float()` is modelled as an
exact parser of decimal literals covering sign, digits, a decimal point and
an optional exponent (the special literals `inf` / `nan` and underscore
digit separators, which never occur in angle filenames, are outside the
model).  Parsed values are exact decimals `PyFloat` in the normal form
`num / 10 ^ exp10` with all factors of ten stripped, so that equality of
`PyFloat` values coincides with numeric equality — matching Python, where
`float("10") == float("10.0") == float("1e1")` and dict keys compare by
numeric value.
Archive access (`ZipFile`) and the image codec (`cv2.imdecode`) are external
collaborators and appear as function parameters.  Python exceptions are
modelled by the inductive `PyErr`; a method that can raise returns
`Except PyErr`.
-/

set_option autoImplicit false

namespace Btf

/-- Python strings, modelled as lists of characters. -/
abbrev PyStr := List Char

/-- Character list of a Lean string literal. -/
def pyStr (s : String) : PyStr := s.data

/-- Decimal digit test, as used by Python float literals. -/
def isDig (c : Char) : Bool := ('0' ≤ c) && (c ≤ '9')

/-- Numeric value of one decimal digit character. -/
def digVal (c : Char) : Nat := c.toNat - ('0').toNat

/-- Value of a string of decimal digits (most significant first). -/
def digitsVal (ds : List Char) : Nat := ds.foldl (fun a c => 10 * a + digVal c) 0

/-- Whitespace characters stripped by Python's `float()`. -/
def isPySpace (c : Char) : Bool :=
  c = ' ' || c = '\t' || c = '\n' || c = '\r' || c = '\x0b' || c = '\x0c'

/-- Strip leading and trailing whitespace, as `float()` does. -/
def pyStrip (s : PyStr) : PyStr :=
  ((s.dropWhile isPySpace).reverse.dropWhile isPySpace).reverse

/-- Consume an optional leading sign; `true` means negative. -/
def splitSign : PyStr → Bool × PyStr
  | '-' :: cs => (true, cs)
  | '+' :: cs => (false, cs)
  | cs => (false, cs)

/-- Split a list at the first character satisfying `p`: the part before it
and, when found, the part after it. -/
def breakAt (p : Char → Bool) : List Char → List Char × Option (List Char)
  | [] => ([], none)
  | c :: cs =>
    if p c then ([], some cs)
    else
      match breakAt p cs with
      | (l, r) => (c :: l, r)

/-- Exact decimal value `num / 10 ^ exp10`, the carrier for parsed Python
floats. -/
structure PyFloat where
  num : ℤ
  exp10 : ℕ
  deriving DecidableEq, Repr

/-- Strip factors of ten: divide `n` by 10 and decrement the exponent while
possible. -/
def normFloatAux : ℤ → ℕ → ℤ × ℕ
  | n, 0 => (n, 0)
  | n, k + 1 =>
    if n.emod 10 = 0 then normFloatAux (n.ediv 10) k else (n, k + 1)

/-- The normal-form decimal with value `n / 10 ^ k`. -/
def mkPyFloat (n : ℤ) (k : ℕ) : PyFloat :=
  match normFloatAux n k with
  | (n', k') => ⟨n', k'⟩

/-- Embedding of a Python `int` into the float carrier (in Python,
`0 == 0.0` and both hash alike as dict keys). -/
def PyFloat.ofInt (n : ℤ) : PyFloat := ⟨n, 0⟩

/-- Rational value of a `PyFloat`. -/
def PyFloat.toRat (x : PyFloat) : ℚ := (x.num : ℚ) / (10 : ℚ) ^ x.exp10

/-- Mantissa of a float literal: digits with at most one decimal point and
at least one digit overall; returns the digits' value and the length of the
fractional part. -/
def parseMant (m : List Char) : Option (ℕ × ℕ) :=
  match breakAt (fun c => c = '.') m with
  | (ip, none) =>
    if ip.all isDig && !ip.isEmpty then some (digitsVal ip, 0) else none
  | (ip, some fp) =>
    if ip.all isDig && fp.all isDig && (!ip.isEmpty || !fp.isEmpty) then
      some (digitsVal (ip ++ fp), fp.length)
    else none

/-- Exponent part of a float literal (`none` when the literal has no
`e`/`E`): optional sign followed by at least one digit. -/
def parseExpPart : Option (List Char) → Option ℤ
  | none => some 0
  | some e =>
    match splitSign e with
    | (neg, ds) =>
      if ds.all isDig && !ds.isEmpty then
        some (if neg then -(digitsVal ds : ℤ) else (digitsVal ds : ℤ))
      else none

/-- Model of Python's `float()` on decimal literals: strip whitespace, read
an optional sign, a digits-and-point mantissa and an optional exponent;
`none` models `ValueError`.  The result is in decimal normal form. -/
def parseFloat (s : PyStr) : Option PyFloat :=
  match splitSign (pyStrip s) with
  | (neg, u) =>
    match breakAt (fun c => c = 'e' || c = 'E') u with
    | (m, ep) =>
      match parseMant m, parseExpPart ep with
      | some (mn, fl), some ev =>
        let sn : ℤ := if neg then -(mn : ℤ) else (mn : ℤ)
        some (match ev with
          | .ofNat k => mkPyFloat (sn * (10 : ℤ) ^ k) fl
          | .negSucc k => mkPyFloat sn (fl + (k + 1)))
      | _, _ => none

/-- First occurrence of `sep` in `s`: the part before it and the part after
it, or `none` when `sep` does not occur. -/
def splitAt1 (sep : List Char) : List Char → Option (List Char × List Char)
  | [] => none
  | c :: cs =>
    if sep.isPrefixOf (c :: cs) then some ([], (c :: cs).drop sep.length)
    else
      match splitAt1 sep cs with
      | some (l, r) => some (c :: l, r)
      | none => none

/-- Fuel-indexed worker for `pySplit`; `fuel` exceeding the string length
makes the fuel irrelevant. -/
def pySplitFuel (sep : List Char) : Nat → List Char → List (List Char)
  | 0, s => [s]
  | fuel + 1, s =>
    match splitAt1 sep s with
    | none => [s]
    | some (l, r) => l :: pySplitFuel sep fuel r

/-- Python's `str.split(sep)` for a non-empty separator.  (Python raises
`ValueError` on an empty separator; the code under verification always
passes a non-empty one.) -/
def pySplit (sep s : List Char) : List (List Char) :=
  pySplitFuel sep (s.length + 1) s

/-- Python's `str.endswith`: does `s` end with `sfx`? -/
def pyEndswith (s sfx : PyStr) : Bool := sfx.isSuffixOf s

/-- Python's negative index `[-1]` on the (always non-empty) result of
`str.split`. -/
def pyLast (xs : List (List Char)) : List Char := xs.getLastD []

/-- Angle tuples `(tl, pl, tv, pv)` of parsed Python floats.  Equality of
normal-form `PyFloat` components coincides with numeric equality, matching
Python's tuple/dict key comparison (where also `0 == 0.0`). -/
abbrev AnglesTuple := PyFloat × PyFloat × PyFloat × PyFloat

/-- Python exceptions raised by `Btfzip`, with their payloads. -/
inductive PyErr where
  /-- `IndexError` from out-of-range list indexing. -/
  | indexError : PyErr
  /-- `TypeError` from calling `_filename_to_angles` without its required
  `sep` argument (btfzip.py line 61). -/
  | typeError : PyErr
  /-- `ValueError("invalid angle:", angles)` from `_filename_to_angles`. -/
  | valueErrorInvalidAngle (angles : List (List Char)) : PyErr
  /-- `ValueError` from `angles_to_image` for a condition absent from the
  index; carries the key and `zip_filepath` named in the message. -/
  | valueErrorNotFound (key : AnglesTuple) (zipPath : PyStr) : PyErr
  /-- `RuntimeError` for duplicated conditions; carries the `zip_filepath`
  named in the message. -/
  | runtimeErrorDuplicated (zipPath : PyStr) : PyErr
  deriving DecidableEq

/-- Is this exception a `ValueError`? -/
def PyErr.isValueError : PyErr → Bool
  | .valueErrorInvalidAngle _ => true
  | .valueErrorNotFound _ _ => true
  | _ => false

/-- Python list indexing `angles[i]`, raising `IndexError` out of range. -/
def pyIndex (angles : List (List Char)) (i : Nat) : Except PyErr (List Char) :=
  match angles.get? i with
  | none => .error .indexError
  | some t => .ok t

/-- One line of the `try` block of `_filename_to_angles`:
`float(angles[i][2:])`, with the `except ValueError` clause re-raising as
`ValueError("invalid angle:", angles)` and `IndexError` escaping uncaught. -/
def parseAngleAt (angles : List (List Char)) (i : Nat) : Except PyErr PyFloat := do
  let t ← pyIndex angles i
  match parseFloat (t.drop 2) with
  | none => .error (.valueErrorInvalidAngle angles)
  | some v => .ok v

/-- The token list `angles` of `_filename_to_angles`:
`filename.split("/")[-1][:-4].split(sep)`. -/
def angleTokens (filename sep : PyStr) : List (List Char) :=
  pySplit sep ((pyLast (pySplit (pyStr "/") filename)).take
    ((pyLast (pySplit (pyStr "/") filename)).length - 4))

/-- `Btfzip._filename_to_angles(filename, sep)`:
`angles = filename.split("/")[-1][:-4].split(sep)` followed by
`float(angles[i][2:])` for the four labelled tokens, in order. -/
def filename_to_angles (filename sep : PyStr) : Except PyErr AnglesTuple := do
  let angles := angleTokens filename sep
  let tl ← parseAngleAt angles 0
  let pl ← parseAngleAt angles 1
  let tv ← parseAngleAt angles 2
  let pv ← parseAngleAt angles 3
  return (tl, pl, tv, pv)

/-- Python dict insertion: an existing key keeps its position and gets the
new value, a new key is appended. -/
def dictInsert (k : AnglesTuple) (v : PyStr) (d : List (AnglesTuple × PyStr)) :
    List (AnglesTuple × PyStr) :=
  if d.any (fun kv => kv.1 = k) then
    d.map (fun kv => if kv.1 = k then (k, v) else kv)
  else d ++ [(k, v)]

/-- Python `dict.get(key)`. -/
def dictGet (d : List (AnglesTuple × PyStr)) (k : AnglesTuple) : Option PyStr :=
  (d.find? (fun kv => kv.1 = k)).map Prod.snd

/-- The dict comprehension of `Btfzip.__init__`:
`{self._filename_to_angles(path, angle_sep): path for path in filepath_set}`,
propagating the first parse exception. -/
def buildDict (sep : PyStr) :
    List PyStr → List (AnglesTuple × PyStr) → Except PyErr (List (AnglesTuple × PyStr))
  | [], d => .ok d
  | p :: ps, d =>
    match filename_to_angles p sep with
    | .error e => .error e
    | .ok k => buildDict sep ps (dictInsert k p d)

/-- The retained entry paths of `Btfzip.__init__`:
`{path for path in self.__z.namelist() if path.endswith(file_ext)}`
(a Python set; archive paths are unique, `dedup` mirrors the set collection). -/
def filepathSet (namelist : List PyStr) (file_ext : PyStr) : List PyStr :=
  (namelist.filter (fun p => pyEndswith p file_ext)).dedup

/-- State of a successfully constructed `Btfzip` object.  `Image` is the
codec's output type (`np.ndarray`); `zread` models reading the full bytes of
an entry through `self.__z.open`, `imdecode` models `cv2.imdecode` applied
to those bytes and a flag. -/
structure BtfState (Image : Type) where
  zip_filepath : PyStr
  zread : PyStr → List Nat
  imdecode : List Nat → Nat → Image
  dict : List (AnglesTuple × PyStr)
  angles_set : Finset AnglesTuple

/-- The flag `cv2.IMREAD_ANYDEPTH`. -/
def IMREAD_ANYDEPTH : Nat := 2

/-- The flag `cv2.IMREAD_ANYCOLOR`. -/
def IMREAD_ANYCOLOR : Nat := 4

/-- `Btfzip.__init__(zip_filepath, file_ext, angle_sep)`, returning the
diagnostic lines written to stderr together with the outcome.  The archive
is its namelist plus the entry reader.  In the duplicated-conditions branch
the source evaluates `self._filename_to_angles(path)` (line 61) without the
required `sep` argument, so Python raises `TypeError` there — before any
diagnostic is printed and before the `RuntimeError` on line 70 is reached. -/
def Btfzip.init (Image : Type) (zip_filepath : PyStr) (namelist : List PyStr)
    (zread : PyStr → List Nat) (imdecode : List Nat → Nat → Image)
    (file_ext sep : PyStr) : List PyStr × Except PyErr (BtfState Image) :=
  let fps := filepathSet namelist file_ext
  match buildDict sep fps [] with
  | .error e => ([], .error e)
  | .ok d =>
    let anglesSet := (d.map Prod.fst).toFinset
    if fps.length ≠ anglesSet.card then
      ([], .error .typeError)
    else
      ([], .ok ⟨zip_filepath, zread, imdecode, d, anglesSet⟩)

/-- `Btfzip.angles_to_image(tl, pl, tv, pv)`: look the key up; `None` or an
empty path (`if not filepath`) raises the not-found `ValueError`; otherwise
read the entry and decode it with `IMREAD_ANYDEPTH + IMREAD_ANYCOLOR`.  The
method assigns no attribute, so the state is returned unchanged. -/
def angles_to_image {Image : Type} (st : BtfState Image) (tl pl tv pv : PyFloat) :
    Except PyErr Image × BtfState Image :=
  let key : AnglesTuple := (tl, pl, tv, pv)
  match dictGet st.dict key with
  | none => (.error (.valueErrorNotFound key st.zip_filepath), st)
  | some filepath =>
    if filepath.isEmpty then (.error (.valueErrorNotFound key st.zip_filepath), st)
    else
      (.ok (st.imdecode (st.zread filepath) (IMREAD_ANYDEPTH + IMREAD_ANYCOLOR)), st)

/-- Extension stripping as the spec words it (claim C2): the suffix removed
before splitting has the character length of the configured extension; the
remainder of the function is identical to `filename_to_angles`. -/
def filename_to_angles_specExt (file_ext filename sep : PyStr) :
    Except PyErr AnglesTuple := do
  let seg := pyLast (pySplit (pyStr "/") filename)
  let angles := pySplit sep (seg.take (seg.length - file_ext.length))
  let tl ← parseAngleAt angles 0
  let pl ← parseAngleAt angles 1
  let tv ← parseAngleAt angles 2
  let pv ← parseAngleAt angles 3
  return (tl, pl, tv, pv)

section Lemmas

/-- Indexing within bounds returns the element. -/
theorem pyIndex_ok (angles : List (List Char)) (i : Nat) (h : i < angles.length) :
    pyIndex angles i = .ok (angles.getD i []) := by
  unfold pyIndex
  rw [List.get?_eq_get h]
  simp [List.getD, List.getElem?_eq_getElem h]

/-- Indexing out of bounds raises `IndexError`. -/
theorem pyIndex_oob (angles : List (List Char)) (i : Nat) (h : angles.length ≤ i) :
    pyIndex angles i = .error .indexError := by
  unfold pyIndex
  rw [List.get?_eq_none.mpr h]

/-- A found binding is a member of the dict. -/
theorem dictGet_mem (d : List (AnglesTuple × PyStr)) (k : AnglesTuple) (p : PyStr)
    (h : dictGet d k = some p) : (k, p) ∈ d := by
  unfold dictGet at h
  cases hf : d.find? (fun kv => kv.1 = k) with
  | none => rw [hf] at h; cases h
  | some kv =>
    rw [hf] at h
    have hmem := List.mem_of_find?_eq_some hf
    have hkey := List.find?_some hf
    cases h
    have : kv.1 = k := by simpa using hkey
    cases kv
    simp only at this
    subst this
    exact hmem

/-- Within bounds, `parseAngleAt` fails exactly like `float(angles[i][2:])`:
an unparseable token raises the invalid-angle `ValueError` naming the whole
token list. -/
theorem parseAngleAt_none (angles : List (List Char)) (i : Nat)
    (h : i < angles.length)
    (hn : parseFloat ((angles.getD i []).drop 2) = none) :
    parseAngleAt angles i = .error (.valueErrorInvalidAngle angles) := by
  unfold parseAngleAt
  rw [pyIndex_ok angles i h]
  show (match parseFloat (((angles.getD i [])).drop 2) with
    | none => (Except.error (PyErr.valueErrorInvalidAngle angles) : Except PyErr PyFloat)
    | some v => Except.ok v) = _
  rw [hn]

/-- Within bounds, a parseable token yields its float value. -/
theorem parseAngleAt_some (angles : List (List Char)) (i : Nat) (v : PyFloat)
    (h : i < angles.length)
    (hs : parseFloat ((angles.getD i []).drop 2) = some v) :
    parseAngleAt angles i = .ok v := by
  unfold parseAngleAt
  rw [pyIndex_ok angles i h]
  show (match parseFloat (((angles.getD i [])).drop 2) with
    | none => (Except.error (PyErr.valueErrorInvalidAngle angles) : Except PyErr PyFloat)
    | some v => Except.ok v) = _
  rw [hs]

/-- Out of bounds, `parseAngleAt` raises `IndexError` (not caught by the
`except ValueError` handler). -/
theorem parseAngleAt_oob (angles : List (List Char)) (i : Nat)
    (h : angles.length ≤ i) :
    parseAngleAt angles i = .error .indexError := by
  unfold parseAngleAt
  rw [pyIndex_oob angles i h]
  rfl

/-- A member of a dict after insertion was already present or is the
inserted binding. -/
theorem mem_dictInsert (k : AnglesTuple) (v : PyStr)
    (d : List (AnglesTuple × PyStr)) (kv : AnglesTuple × PyStr)
    (h : kv ∈ dictInsert k v d) : kv ∈ d ∨ kv = (k, v) := by
  unfold dictInsert at h
  by_cases hc : d.any (fun kv => kv.1 = k)
  · rw [if_pos hc] at h
    rcases List.mem_map.mp h with ⟨kv0, hkv0, heq⟩
    by_cases hk : kv0.1 = k
    · right; rw [if_pos hk] at heq; exact heq.symm
    · left; rw [if_neg hk] at heq; exact heq ▸ hkv0
  · rw [if_neg hc] at h
    rcases List.mem_append.mp h with h | h
    · exact Or.inl h
    · exact Or.inr (List.mem_singleton.mp h)

/-- Every binding produced by the dict comprehension either was in the
accumulator or has a value drawn from the processed paths. -/
theorem buildDict_mem (sep : PyStr) :
    ∀ (ps : List PyStr) (d0 d : List (AnglesTuple × PyStr)),
      buildDict sep ps d0 = .ok d →
      ∀ kv ∈ d, kv ∈ d0 ∨ kv.2 ∈ ps := by
  intro ps
  induction ps with
  | nil =>
    intro d0 d h kv hkv
    unfold buildDict at h
    cases h
    exact Or.inl hkv
  | cons p ps ih =>
    intro d0 d h kv hkv
    unfold buildDict at h
    cases hp : filename_to_angles p sep with
    | error e => rw [hp] at h; cases h
    | ok k =>
      rw [hp] at h
      rcases ih (dictInsert k p d0) d h kv hkv with hin | hin
      · rcases mem_dictInsert k p d0 kv hin with hin | hin
        · exact Or.inl hin
        · right; rw [hin]; exact List.mem_cons_self p ps
      · right; exact List.mem_cons_of_mem p hin
/-- Retained paths end with the configured extension. -/
theorem mem_filepathSet (namelist : List PyStr) (file_ext p : PyStr)
    (h : p ∈ filepathSet namelist file_ext) : pyEndswith p file_ext = true := by
  unfold filepathSet at h
  exact (List.mem_filter.mp (List.mem_dedup.mp h)).2

/-- On success, every value of the constructed index is a retained path. -/
theorem init_dict_values (Image : Type) (zp : PyStr) (namelist : List PyStr)
    (zread : PyStr → List Nat) (imdec : List Nat → Nat → Image)
    (file_ext sep : PyStr) (st : BtfState Image)
    (h : (Btfzip.init Image zp namelist zread imdec file_ext sep).2 = .ok st) :
    ∀ kv ∈ st.dict, kv.2 ∈ filepathSet namelist file_ext := by
  simp only [Btfzip.init] at h
  cases hb : buildDict sep (filepathSet namelist file_ext) [] with
  | error e => rw [hb] at h; simp at h
  | ok d =>
    rw [hb] at h
    dsimp only at h
    by_cases hdup : (filepathSet namelist file_ext).length ≠ (d.map Prod.fst).toFinset.card
    · rw [if_pos hdup] at h; simp at h
    · rw [if_neg hdup] at h
      dsimp only at h
      cases h
      intro kv hkv
      rcases buildDict_mem sep (filepathSet namelist file_ext) [] d hb kv hkv with h0 | h0
      · cases h0
      · exact h0

/-- Inserting a key not yet present appends the binding. -/
theorem dictInsert_fresh (k : AnglesTuple) (v : PyStr)
    (d : List (AnglesTuple × PyStr)) (h : ∀ kv ∈ d, kv.1 ≠ k) :
    dictInsert k v d = d ++ [(k, v)] := by
  unfold dictInsert
  rw [if_neg]
  simp only [List.any_eq_true, decide_eq_true_eq, not_exists]
  intro kv
  intro hand
  exact h kv hand.1 hand.2

/-- The dict comprehension under pairwise-distinct parse results: all paths
parse, no parsed key collides with the accumulator, and parsing is
injective on the paths.  Then it succeeds, adds one binding per path, keeps
the keys duplicate-free, and every new binding's key is the parse of its
path. -/
theorem buildDict_distinct (sep : PyStr) :
    ∀ (ps : List PyStr) (d : List (AnglesTuple × PyStr)),
      (∀ p ∈ ps, ∃ k, filename_to_angles p sep = .ok k) →
      (∀ p ∈ ps, ∀ kv ∈ d, filename_to_angles p sep ≠ .ok kv.1) →
      (∀ p q, p ∈ ps → q ∈ ps →
        filename_to_angles p sep = filename_to_angles q sep → p = q) →
      ps.Nodup →
      (d.map Prod.fst).Nodup →
      ∃ d', buildDict sep ps d = .ok d'
        ∧ d'.length = d.length + ps.length
        ∧ (d'.map Prod.fst).Nodup
        ∧ ∀ kv ∈ d', kv ∈ d
            ∨ (kv.2 ∈ ps ∧ filename_to_angles kv.2 sep = .ok kv.1) := by
  intro ps
  induction ps with
  | nil =>
    intro d _ _ _ _ hnd
    exact ⟨d, rfl, by simp, hnd, fun kv hkv => Or.inl hkv⟩
  | cons p ps ih =>
    intro d hok hfresh hinj hnodup hnd
    obtain ⟨k, hk⟩ := hok p (List.mem_cons_self p ps)
    have hp_notin : p ∉ ps := (List.nodup_cons.mp hnodup).1
    have hfresh_p : ∀ kv ∈ d, kv.1 ≠ k := by
      intro kv hkv heq
      exact hfresh p (List.mem_cons_self p ps) kv hkv (heq ▸ hk)
    have hins : dictInsert k p d = d ++ [(k, p)] := dictInsert_fresh k p d hfresh_p
    have hok' : ∀ q ∈ ps, ∃ k', filename_to_angles q sep = .ok k' :=
      fun q hq => hok q (List.mem_cons_of_mem p hq)
    have hfresh' : ∀ q ∈ ps, ∀ kv ∈ d ++ [(k, p)],
        filename_to_angles q sep ≠ .ok kv.1 := by
      intro q hq kv hkv
      rcases List.mem_append.mp hkv with hind | hone
      · exact hfresh q (List.mem_cons_of_mem p hq) kv hind
      · have hkv' : kv = (k, p) := List.mem_singleton.mp hone
        subst hkv'
        intro hqk
        have hqp : q = p := hinj q p (List.mem_cons_of_mem p hq)
          (List.mem_cons_self p ps) (by rw [hqk, hk])
        exact hp_notin (hqp ▸ hq)
    have hinj' : ∀ a b, a ∈ ps → b ∈ ps →
        filename_to_angles a sep = filename_to_angles b sep → a = b :=
      fun a b ha hb => hinj a b (List.mem_cons_of_mem p ha) (List.mem_cons_of_mem p hb)
    have hnd2 : ((d ++ [(k, p)]).map Prod.fst).Nodup := by
      rw [List.map_append]
      apply List.Nodup.append hnd (by simp)
      intro x hx hx'
      simp only [List.map_cons, List.map_nil, List.mem_singleton] at hx'
      rcases List.mem_map.mp hx with ⟨kv, hkv, hfst⟩
      exact hfresh_p kv hkv (hfst.trans hx')
    obtain ⟨d', hbd, hlen, hnd', hmem⟩ :=
      ih (d ++ [(k, p)]) hok' hfresh' hinj' (List.nodup_cons.mp hnodup).2 hnd2
    refine ⟨d', ?_, ?_, hnd', ?_⟩
    · unfold buildDict
      rw [hk]
      show buildDict sep ps (dictInsert k p d) = Except.ok d'
      rw [hins]
      exact hbd
    · rw [hlen]
      simp
      omega
    · intro kv hkv
      rcases hmem kv hkv with hin | hin
      · rcases List.mem_append.mp hin with hin | hone
        · exact Or.inl hin
        · have hkv' : kv = (k, p) := List.mem_singleton.mp hone
          subst hkv'
          exact Or.inr ⟨List.mem_cons_self p ps, hk⟩
      · exact Or.inr ⟨List.mem_cons_of_mem p hin.1, hin.2⟩

/-- A single-character separator absent from the string is never found. -/
theorem splitAt1_none_of_not_mem (c : Char) (s : List Char) (h : c ∉ s) :
    splitAt1 [c] s = none := by
  induction s with
  | nil => rfl
  | cons x xs ih =>
    unfold splitAt1
    have hcx : ¬ [c].isPrefixOf (x :: xs) = true := by
      simp only [List.isPrefixOf, Bool.and_eq_true, beq_iff_eq, List.isPrefixOf_nil_left,
        and_true]
      intro hcx
      exact h (hcx ▸ List.mem_cons_self x xs)
    rw [if_neg hcx, ih (fun hmem => h (List.mem_cons_of_mem x hmem))]

/-- The first occurrence of a single-character separator after a
separator-free chunk splits exactly there. -/
theorem splitAt1_append_cons (c : Char) (t r : List Char) (h : c ∉ t) :
    splitAt1 [c] (t ++ c :: r) = some (t, r) := by
  induction t with
  | nil =>
    rw [List.nil_append]
    simp only [splitAt1]
    rw [if_pos (by simp [List.isPrefixOf])]
    simp
  | cons x xs ih =>
    have hcx : ¬ [c].isPrefixOf (x :: (xs ++ c :: r)) = true := by
      simp only [List.isPrefixOf, Bool.and_eq_true, beq_iff_eq, List.isPrefixOf_nil_left,
        and_true]
      intro hcx
      exact h (hcx ▸ List.mem_cons_self x xs)
    rw [List.cons_append]
    simp only [splitAt1]
    rw [if_neg hcx, ih (fun hmem => h (List.mem_cons_of_mem x hmem))]

/-- Splitting strictly shortens the remainder for a non-empty separator. -/
theorem splitAt1_some_length (sep : List Char) (hsep : sep ≠ []) :
    ∀ (s l r : List Char), splitAt1 sep s = some (l, r) → r.length < s.length := by
  intro s
  induction s with
  | nil => intro l r h; cases h
  | cons x xs ih =>
    intro l r h
    simp only [splitAt1] at h
    by_cases hpre : sep.isPrefixOf (x :: xs) = true
    · rw [if_pos hpre] at h
      cases h
      have h1 : 1 ≤ sep.length := by
        cases sep with
        | nil => exact absurd rfl hsep
        | cons a as => simp
      simp only [List.length_drop, List.length_cons]
      omega
    · rw [if_neg hpre] at h
      cases hrec : splitAt1 sep xs with
      | none => rw [hrec] at h; cases h
      | some q =>
        obtain ⟨l2, r2⟩ := q
        rw [hrec] at h
        dsimp only at h
        simp only [Option.some.injEq, Prod.mk.injEq] at h
        obtain ⟨h1, h2⟩ := h
        subst h2
        have hr2 := ih l2 r2 hrec
        simp only [List.length_cons]
        omega

/-- The fuel of `pySplitFuel` is irrelevant once it exceeds the string
length (for a non-empty separator). -/
theorem pySplitFuel_congr (sep : List Char) (hsep : sep ≠ []) :
    ∀ (n m : ℕ) (s : List Char), s.length < n → s.length < m →
      pySplitFuel sep n s = pySplitFuel sep m s := by
  intro n
  induction n with
  | zero => intro m s hn; omega
  | succ n ih =>
    intro m s hn hm
    cases m with
    | zero => omega
    | succ m =>
      simp only [pySplitFuel]
      cases hsp : splitAt1 sep s with
      | none => rfl
      | some q =>
        obtain ⟨l, r⟩ := q
        have hr := splitAt1_some_length sep hsep s l r hsp
        dsimp only
        rw [ih m r (by omega) (by omega)]

/-- Unfolding `pySplit` when the separator does not occur. -/
theorem pySplit_eq_none (sep s : List Char) (h : splitAt1 sep s = none) :
    pySplit sep s = [s] := by
  unfold pySplit
  simp only [pySplitFuel]
  rw [h]

/-- Unfolding `pySplit` at the first separator occurrence. -/
theorem pySplit_eq_cons (sep s l r : List Char) (hsep : sep ≠ [])
    (h : splitAt1 sep s = some (l, r)) :
    pySplit sep s = l :: pySplit sep r := by
  have hr := splitAt1_some_length sep hsep s l r h
  have step : pySplit sep s = l :: pySplitFuel sep s.length r := by
    show pySplitFuel sep (s.length + 1) s = _
    simp only [pySplitFuel]
    rw [h]
  rw [step, pySplitFuel_congr sep hsep s.length (r.length + 1) r hr (by omega)]
  rfl

/-- A separator-free string splits into itself alone. -/
theorem pySplit_single (c : Char) (t : List Char) (h : c ∉ t) :
    pySplit [c] t = [t] :=
  pySplit_eq_none [c] t (splitAt1_none_of_not_mem c t h)

/-- Splitting peels off one separator-free token at a time. -/
theorem pySplit_sep (c : Char) (t r : List Char) (h : c ∉ t) :
    pySplit [c] (t ++ c :: r) = t :: pySplit [c] r :=
  pySplit_eq_cons [c] (t ++ c :: r) t r (by simp)
    (splitAt1_append_cons c t r h)

end Lemmas

/-- C1: the claim says that an archive with two entries parsing to the same
angle tuple fails with the duplicate-condition `RuntimeError` after writing
one diagnostic line per duplicated tuple.  The code is wrong: line 61 calls
`self._filename_to_angles(path)` without the required `sep` argument, so
construction dies with `TypeError`, no diagnostic line ever written and the
`RuntimeError` on line 70 unreachable.  This theorem evaluates construction
at such an archive: empty stderr and a `TypeError`. -/
theorem duplicate_conditions_raise_typeError :
    Btfzip.init Unit (pyStr "dup.zip")
      [pyStr "tl0 pl0 tv0 pv0.exr", pyStr "a/tl0 pl0 tv0 pv0.exr"]
      (fun _ => []) (fun _ _ => ()) (pyStr ".exr") (pyStr " ")
      = ([], .error .typeError) := by
  rfl

/-- C9: an archive containing exactly `tl0 pl0 tv0 pv0.exr` (default
extension and separator) yields the known-tuple set `{(0, 0, 0, 0)}`, and
`angles_to_image` called with the integer arguments `0, 0, 0, 0` (embedded
by `PyFloat.ofInt`, as Python's `0` equals `0.0` under dict-key equality)
resolves to that entry, decoding its bytes with
`IMREAD_ANYDEPTH + IMREAD_ANYCOLOR`. -/
theorem singleton_archive_integer_lookup :
    ∃ st : BtfState (List Nat),
      Btfzip.init (List Nat) (pyStr "Colorchecker.zip")
          [pyStr "tl0 pl0 tv0 pv0.exr"]
          (fun p => p.map Char.toNat) (fun bs fl => bs ++ [fl])
          (pyStr ".exr") (pyStr " ")
        = ([], .ok st)
      ∧ st.angles_set
        = ({(PyFloat.ofInt 0, PyFloat.ofInt 0, PyFloat.ofInt 0, PyFloat.ofInt 0)} :
            Finset AnglesTuple)
      ∧ angles_to_image st (PyFloat.ofInt 0) (PyFloat.ofInt 0)
            (PyFloat.ofInt 0) (PyFloat.ofInt 0)
        = (.ok (((pyStr "tl0 pl0 tv0 pv0.exr").map Char.toNat)
            ++ [IMREAD_ANYDEPTH + IMREAD_ANYCOLOR]), st) := by
  exact ⟨_, rfl, by decide, rfl⟩

/-- C2 counterexample: with the configured extension `.gz` (3 characters)
and the entry name `tl0 pl0 tv0 pv12.gz`, stripping a suffix of the
extension's length (the claim's reading, `filename_to_angles_specExt`)
yields `pv = 12`, but the code (`filename_to_angles`) always strips 4
characters and yields `pv = 1` — so parsing does not behave identically for
extensions of every length. -/
theorem extension_strip_length_counterexample :
    filename_to_angles_specExt (pyStr ".gz") (pyStr "tl0 pl0 tv0 pv12.gz") (pyStr " ")
      = .ok (PyFloat.ofInt 0, PyFloat.ofInt 0, PyFloat.ofInt 0, PyFloat.ofInt 12)
    ∧ filename_to_angles (pyStr "tl0 pl0 tv0 pv12.gz") (pyStr " ")
      = .ok (PyFloat.ofInt 0, PyFloat.ofInt 0, PyFloat.ofInt 0, PyFloat.ofInt 1)
    ∧ PyFloat.ofInt 12 ≠ PyFloat.ofInt 1 := by
  exact ⟨rfl, rfl, by decide⟩

/-- C2 amended: the parser strips a fixed 4-character suffix from the final
path segment, so it agrees with the spec's per-extension stripping exactly
when the configured extension string has length 4 (such as the default
`.exr`). -/
theorem extension_strip_is_fixed_four (file_ext filename sep : PyStr)
    (h : file_ext.length = 4) :
    filename_to_angles_specExt file_ext filename sep
      = filename_to_angles filename sep := by
  unfold filename_to_angles_specExt filename_to_angles angleTokens
  rw [h]

/-- C4: looking up an AngleTuple absent from the index fails with the
not-found `ValueError` naming the archive and the requested tuple — no
other exception — and leaves the state unchanged, so any tuple present in
the index (with its necessarily non-empty entry path) still resolves. -/
theorem absent_tuple_lookup_not_found {Image : Type} (st : BtfState Image)
    (tl pl tv pv : PyFloat)
    (habs : dictGet st.dict (tl, pl, tv, pv) = none) :
    angles_to_image st tl pl tv pv
      = (.error (.valueErrorNotFound (tl, pl, tv, pv) st.zip_filepath), st)
    ∧ ∀ tl' pl' tv' pv' p, dictGet st.dict (tl', pl', tv', pv') = some p →
        p.isEmpty = false →
        angles_to_image st tl' pl' tv' pv'
          = (.ok (st.imdecode (st.zread p) (IMREAD_ANYDEPTH + IMREAD_ANYCOLOR)), st) := by
  constructor
  · simp only [angles_to_image, habs]
  · intro tl' pl' tv' pv' p hp hne
    simp only [angles_to_image, hp, hne]
    simp

/-- Witness for `absent_tuple_lookup_not_found`: the empty index at the key
`(0, 0, 0, 0)`. -/
theorem absent_tuple_lookup_not_found_witness :
    dictGet ([] : List (AnglesTuple × PyStr))
        (PyFloat.ofInt 0, PyFloat.ofInt 0, PyFloat.ofInt 0, PyFloat.ofInt 0) = none
    ∧ angles_to_image (⟨pyStr "z.zip", fun _ => [], fun _ _ => (), [], ∅⟩ : BtfState Unit)
        (PyFloat.ofInt 0) (PyFloat.ofInt 0) (PyFloat.ofInt 0) (PyFloat.ofInt 0)
      = (.error (.valueErrorNotFound
          (PyFloat.ofInt 0, PyFloat.ofInt 0, PyFloat.ofInt 0, PyFloat.ofInt 0)
          (pyStr "z.zip")),
         (⟨pyStr "z.zip", fun _ => [], fun _ _ => (), [], ∅⟩ : BtfState Unit)) :=
  ⟨rfl, (absent_tuple_lookup_not_found
    (⟨pyStr "z.zip", fun _ => [], fun _ _ => (), [], ∅⟩ : BtfState Unit)
    (PyFloat.ofInt 0) (PyFloat.ofInt 0) (PyFloat.ofInt 0) (PyFloat.ofInt 0) rfl).1⟩

/-- C8: for a tuple present in the index, `angles_to_image` reads the bytes
of the mapped entry and decodes them with fixed flags; with the archive
reader and codec modelled as functions (deterministic), the state component
of the result is the input state (no mutation of index, key set or archive),
and a second call with the same tuple returns the identical result. -/
theorem repeated_lookup_identical {Image : Type} (st : BtfState Image)
    (tl pl tv pv : PyFloat) (p : PyStr)
    (hp : dictGet st.dict (tl, pl, tv, pv) = some p) (hne : p.isEmpty = false) :
    angles_to_image st tl pl tv pv
      = (.ok (st.imdecode (st.zread p) (IMREAD_ANYDEPTH + IMREAD_ANYCOLOR)), st)
    ∧ angles_to_image (angles_to_image st tl pl tv pv).2 tl pl tv pv
      = angles_to_image st tl pl tv pv := by
  have h1 : angles_to_image st tl pl tv pv
      = (.ok (st.imdecode (st.zread p) (IMREAD_ANYDEPTH + IMREAD_ANYCOLOR)), st) := by
    simp only [angles_to_image, hp, hne]
    simp
  exact ⟨h1, by rw [h1]; exact h1⟩

/-- Witness for `repeated_lookup_identical`: a one-entry index looked up at
its own key. -/
theorem repeated_lookup_identical_witness :
    dictGet [((PyFloat.ofInt 0, PyFloat.ofInt 0, PyFloat.ofInt 0, PyFloat.ofInt 0),
        pyStr "tl0 pl0 tv0 pv0.exr")]
        (PyFloat.ofInt 0, PyFloat.ofInt 0, PyFloat.ofInt 0, PyFloat.ofInt 0)
      = some (pyStr "tl0 pl0 tv0 pv0.exr")
    ∧ (pyStr "tl0 pl0 tv0 pv0.exr").isEmpty = false
    ∧ angles_to_image (⟨pyStr "z.zip", fun p => p.map Char.toNat, fun bs fl => bs ++ [fl],
        [((PyFloat.ofInt 0, PyFloat.ofInt 0, PyFloat.ofInt 0, PyFloat.ofInt 0),
          pyStr "tl0 pl0 tv0 pv0.exr")], ∅⟩ : BtfState (List Nat))
        (PyFloat.ofInt 0) (PyFloat.ofInt 0) (PyFloat.ofInt 0) (PyFloat.ofInt 0)
      = (.ok (((pyStr "tl0 pl0 tv0 pv0.exr").map Char.toNat)
          ++ [IMREAD_ANYDEPTH + IMREAD_ANYCOLOR]),
         (⟨pyStr "z.zip", fun p => p.map Char.toNat, fun bs fl => bs ++ [fl],
          [((PyFloat.ofInt 0, PyFloat.ofInt 0, PyFloat.ofInt 0, PyFloat.ofInt 0),
            pyStr "tl0 pl0 tv0 pv0.exr")], ∅⟩ : BtfState (List Nat))) :=
  ⟨rfl, rfl, (repeated_lookup_identical
    (⟨pyStr "z.zip", fun p => p.map Char.toNat, fun bs fl => bs ++ [fl],
      [((PyFloat.ofInt 0, PyFloat.ofInt 0, PyFloat.ofInt 0, PyFloat.ofInt 0),
        pyStr "tl0 pl0 tv0 pv0.exr")], ∅⟩ : BtfState (List Nat))
    (PyFloat.ofInt 0) (PyFloat.ofInt 0) (PyFloat.ofInt 0) (PyFloat.ofInt 0)
    (pyStr "tl0 pl0 tv0 pv0.exr") rfl rfl).1⟩

/-- C5: when the stem splits into at least four tokens and any of the first
four fails to parse as a float after its 2-character label is stripped, the
parser fails with `ValueError("invalid angle:", angles)`, identifying the
offending token list. -/
theorem malformed_token_parse_error (filename sep : PyStr)
    (h4 : 4 ≤ (angleTokens filename sep).length)
    (hbad : parseFloat (((angleTokens filename sep).getD 0 []).drop 2) = none
      ∨ parseFloat (((angleTokens filename sep).getD 1 []).drop 2) = none
      ∨ parseFloat (((angleTokens filename sep).getD 2 []).drop 2) = none
      ∨ parseFloat (((angleTokens filename sep).getD 3 []).drop 2) = none) :
    filename_to_angles filename sep
      = .error (.valueErrorInvalidAngle (angleTokens filename sep)) := by
  have h0 : 0 < (angleTokens filename sep).length := by omega
  have h1 : 1 < (angleTokens filename sep).length := by omega
  have h2 : 2 < (angleTokens filename sep).length := by omega
  have h3 : 3 < (angleTokens filename sep).length := by omega
  rcases o0 : parseFloat (((angleTokens filename sep).getD 0 []).drop 2) with _ | v0
  · simp only [filename_to_angles, parseAngleAt_none _ 0 h0 o0]
    rfl
  rcases o1 : parseFloat (((angleTokens filename sep).getD 1 []).drop 2) with _ | v1
  · simp only [filename_to_angles, parseAngleAt_some _ 0 v0 h0 o0,
      parseAngleAt_none _ 1 h1 o1]
    rfl
  rcases o2 : parseFloat (((angleTokens filename sep).getD 2 []).drop 2) with _ | v2
  · simp only [filename_to_angles, parseAngleAt_some _ 0 v0 h0 o0,
      parseAngleAt_some _ 1 v1 h1 o1, parseAngleAt_none _ 2 h2 o2]
    rfl
  rcases o3 : parseFloat (((angleTokens filename sep).getD 3 []).drop 2) with _ | v3
  · simp only [filename_to_angles, parseAngleAt_some _ 0 v0 h0 o0,
      parseAngleAt_some _ 1 v1 h1 o1, parseAngleAt_some _ 2 v2 h2 o2,
      parseAngleAt_none _ 3 h3 o3]
    rfl
  · rcases hbad with hb | hb | hb | hb <;> simp_all

/-- Witness for `malformed_token_parse_error`: `tlx ply tvz pvw.exr`, whose
four stripped tokens are all unparseable. -/
theorem malformed_token_parse_error_witness :
    4 ≤ (angleTokens (pyStr "tlx ply tvz pvw.exr") (pyStr " ")).length
    ∧ filename_to_angles (pyStr "tlx ply tvz pvw.exr") (pyStr " ")
      = .error (.valueErrorInvalidAngle
          (angleTokens (pyStr "tlx ply tvz pvw.exr") (pyStr " "))) :=
  ⟨by decide, malformed_token_parse_error (pyStr "tlx ply tvz pvw.exr") (pyStr " ")
    (by decide) (Or.inl (by decide))⟩

/-- C10 counterexample: the claim asserts `IndexError` for every filename
whose stem splits into fewer than four tokens, but `tlx.exr` has a single
token `tlx`, and `float("x")` fails first, so the caught-and-rewrapped
`ValueError` is raised, not `IndexError`. -/
theorem short_filename_counterexample :
    (angleTokens (pyStr "tlx.exr") (pyStr " ")).length < 4
    ∧ filename_to_angles (pyStr "tlx.exr") (pyStr " ")
      = .error (.valueErrorInvalidAngle [pyStr "tlx"])
    ∧ (PyErr.valueErrorInvalidAngle [pyStr "tlx"]) ≠ PyErr.indexError := by
  exact ⟨by decide, rfl, by decide⟩

/-- C10 amended: when the stem splits into fewer than four tokens and every
token present does parse as a float after label stripping, the out-of-range
indexing `angles[i]` raises `IndexError`, which the `except ValueError`
handler does not catch — the declared `ParseError` is bypassed. -/
theorem short_filename_raises_indexError (filename sep : PyStr)
    (hshort : (angleTokens filename sep).length < 4)
    (hok : ∀ t ∈ angleTokens filename sep, (parseFloat (t.drop 2)).isSome = true) :
    filename_to_angles filename sep = .error .indexError := by
  rcases hlen : angleTokens filename sep with _ | ⟨t0, _ | ⟨t1, _ | ⟨t2, rest⟩⟩⟩
  · simp only [filename_to_angles, hlen, parseAngleAt_oob [] 0 (by simp)]
    rfl
  · have hp0 := hok t0 (by rw [hlen]; exact List.mem_singleton_self t0)
    rcases Option.isSome_iff_exists.mp hp0 with ⟨v0, hv0⟩
    simp only [filename_to_angles, hlen,
      parseAngleAt_some [t0] 0 v0 (by simp) (by simpa using hv0),
      parseAngleAt_oob [t0] 1 (by simp)]
    rfl
  · have hp0 := hok t0 (by rw [hlen]; exact List.mem_cons_self t0 [t1])
    have hp1 := hok t1 (by rw [hlen]; exact List.mem_cons_of_mem t0 (List.mem_singleton_self t1))
    rcases Option.isSome_iff_exists.mp hp0 with ⟨v0, hv0⟩
    rcases Option.isSome_iff_exists.mp hp1 with ⟨v1, hv1⟩
    simp only [filename_to_angles, hlen,
      parseAngleAt_some [t0, t1] 0 v0 (by simp) (by simpa using hv0),
      parseAngleAt_some [t0, t1] 1 v1 (by simp) (by simpa using hv1),
      parseAngleAt_oob [t0, t1] 2 (by simp)]
    rfl
  · have hrest : rest = [] := by
      rw [hlen] at hshort
      simp at hshort
      exact List.eq_nil_of_length_eq_zero (by omega)
    subst hrest
    have hp0 := hok t0 (by rw [hlen]; simp)
    have hp1 := hok t1 (by rw [hlen]; simp)
    have hp2 := hok t2 (by rw [hlen]; simp)
    rcases Option.isSome_iff_exists.mp hp0 with ⟨v0, hv0⟩
    rcases Option.isSome_iff_exists.mp hp1 with ⟨v1, hv1⟩
    rcases Option.isSome_iff_exists.mp hp2 with ⟨v2, hv2⟩
    simp only [filename_to_angles, hlen,
      parseAngleAt_some [t0, t1, t2] 0 v0 (by simp) (by simpa using hv0),
      parseAngleAt_some [t0, t1, t2] 1 v1 (by simp) (by simpa using hv1),
      parseAngleAt_some [t0, t1, t2] 2 v2 (by simp) (by simpa using hv2),
      parseAngleAt_oob [t0, t1, t2] 3 (by simp)]
    rfl

/-- Witness for `short_filename_raises_indexError`: `tl1 pl2.exr` has two
tokens, both parseable, and escapes with `IndexError`. -/
theorem short_filename_raises_indexError_witness :
    (angleTokens (pyStr "tl1 pl2.exr") (pyStr " ")).length < 4
    ∧ filename_to_angles (pyStr "tl1 pl2.exr") (pyStr " ")
      = .error .indexError :=
  ⟨by decide, short_filename_raises_indexError (pyStr "tl1 pl2.exr") (pyStr " ")
    (by decide) (by decide)⟩

/-- C6: an entry whose path does not end with the configured extension is
excluded before parsing: adding it to the archive changes nothing about
construction (its filename is never parsed, so it can trigger no
`ParseError`, and it contributes neither to the index nor to `angles_set`),
and every value of a successfully built index ends with the extension. -/
theorem non_matching_extension_excluded (Image : Type) (zp : PyStr)
    (namelist : List PyStr) (zread : PyStr → List Nat)
    (imdec : List Nat → Nat → Image) (file_ext sep : PyStr) (bad : PyStr)
    (hbad : pyEndswith bad file_ext = false) :
    Btfzip.init Image zp (namelist ++ [bad]) zread imdec file_ext sep
      = Btfzip.init Image zp namelist zread imdec file_ext sep
    ∧ ∀ st, (Btfzip.init Image zp namelist zread imdec file_ext sep).2 = .ok st →
        ∀ k p, dictGet st.dict k = some p → pyEndswith p file_ext = true := by
  constructor
  · have hfps : filepathSet (namelist ++ [bad]) file_ext
        = filepathSet namelist file_ext := by
      unfold filepathSet
      rw [List.filter_append]
      simp [hbad]
    simp only [Btfzip.init, hfps]
  · intro st hst k p hget
    exact mem_filepathSet namelist file_ext p
      (init_dict_values Image zp namelist zread imdec file_ext sep st hst
        (k, p) (dictGet_mem st.dict k p hget))

/-- Witness for `non_matching_extension_excluded`: a stray `note.txt` next
to a valid `.exr` entry. -/
theorem non_matching_extension_excluded_witness :
    pyEndswith (pyStr "note.txt") (pyStr ".exr") = false
    ∧ (Btfzip.init Unit (pyStr "a.zip")
          ([pyStr "tl0 pl0 tv0 pv0.exr"] ++ [pyStr "note.txt"])
          (fun _ => []) (fun _ _ => ()) (pyStr ".exr") (pyStr " ")
        = Btfzip.init Unit (pyStr "a.zip") [pyStr "tl0 pl0 tv0 pv0.exr"]
          (fun _ => []) (fun _ _ => ()) (pyStr ".exr") (pyStr " ")
      ∧ ∀ st, (Btfzip.init Unit (pyStr "a.zip") [pyStr "tl0 pl0 tv0 pv0.exr"]
          (fun _ => []) (fun _ _ => ()) (pyStr ".exr") (pyStr " ")).2 = .ok st →
          ∀ k p, dictGet st.dict k = some p
            → pyEndswith p (pyStr ".exr") = true) :=
  ⟨by decide, non_matching_extension_excluded Unit (pyStr "a.zip")
    [pyStr "tl0 pl0 tv0 pv0.exr"] (fun _ => []) (fun _ _ => ())
    (pyStr ".exr") (pyStr " ") (pyStr "note.txt") (by decide)⟩

/-- C7: when all retained entries parse and have pairwise-distinct
AngleTuples, construction succeeds; `angles_set` — an immutable `Finset`,
the model of the `frozenset` built once in `__init__` and never reassigned —
holds exactly one tuple per retained entry, it is exactly the key set of the
AngleTuple-to-EntryPath mapping, and that mapping is injective: a retained
path is the image of exactly one AngleTuple. -/
theorem distinct_conditions_index (Image : Type) (zp : PyStr)
    (namelist : List PyStr) (zread : PyStr → List Nat)
    (imdec : List Nat → Nat → Image) (file_ext sep : PyStr)
    (hok : ∀ p ∈ filepathSet namelist file_ext,
      ∃ k, filename_to_angles p sep = .ok k)
    (hinj : ∀ p q, p ∈ filepathSet namelist file_ext →
      q ∈ filepathSet namelist file_ext →
      filename_to_angles p sep = filename_to_angles q sep → p = q) :
    ∃ st, Btfzip.init Image zp namelist zread imdec file_ext sep = ([], .ok st)
      ∧ st.angles_set.card = (filepathSet namelist file_ext).length
      ∧ st.angles_set = (st.dict.map Prod.fst).toFinset
      ∧ ∀ k1 k2 p, dictGet st.dict k1 = some p → dictGet st.dict k2 = some p →
          k1 = k2 := by
  obtain ⟨d, hbd, hlen, hnd, hmem⟩ :=
    buildDict_distinct sep (filepathSet namelist file_ext) [] hok
      (by intro p hp kv hkv; cases hkv) hinj (List.nodup_dedup _) (by simp)
  have hcard : (d.map Prod.fst).toFinset.card
      = (filepathSet namelist file_ext).length := by
    rw [List.toFinset_card_of_nodup hnd, List.length_map, hlen]
    simp
  refine ⟨⟨zp, zread, imdec, d, (d.map Prod.fst).toFinset⟩, ?_, hcard, rfl, ?_⟩
  · simp only [Btfzip.init]
    rw [hbd]
    dsimp only
    rw [if_neg (fun hne => hne hcard.symm)]
  · intro k1 k2 p h1 h2
    have m1 := dictGet_mem d k1 p h1
    have m2 := dictGet_mem d k2 p h2
    rcases hmem _ m1 with h | h
    · cases h
    rcases hmem _ m2 with h' | h'
    · cases h'
    exact Except.ok.inj (h.2.symm.trans h'.2)

/-- Witness for `distinct_conditions_index`: two entries with distinct
tuples `(0,0,0,0)` and `(1,0,0,0)`. -/
theorem distinct_conditions_index_witness :
    (∀ p ∈ filepathSet [pyStr "tl0 pl0 tv0 pv0.exr", pyStr "tl1 pl0 tv0 pv0.exr"]
        (pyStr ".exr"), ∃ k, filename_to_angles p (pyStr " ") = .ok k)
    ∧ ∃ st, Btfzip.init Unit (pyStr "a.zip")
          [pyStr "tl0 pl0 tv0 pv0.exr", pyStr "tl1 pl0 tv0 pv0.exr"]
          (fun _ => []) (fun _ _ => ()) (pyStr ".exr") (pyStr " ")
        = ([], .ok st)
      ∧ st.angles_set.card
        = (filepathSet [pyStr "tl0 pl0 tv0 pv0.exr", pyStr "tl1 pl0 tv0 pv0.exr"]
            (pyStr ".exr")).length
      ∧ st.angles_set = (st.dict.map Prod.fst).toFinset
      ∧ ∀ k1 k2 p, dictGet st.dict k1 = some p → dictGet st.dict k2 = some p →
          k1 = k2 := by
  have hmem2 : ∀ p, p ∈ filepathSet
      [pyStr "tl0 pl0 tv0 pv0.exr", pyStr "tl1 pl0 tv0 pv0.exr"] (pyStr ".exr") →
      p = pyStr "tl0 pl0 tv0 pv0.exr" ∨ p = pyStr "tl1 pl0 tv0 pv0.exr" := by
    intro p hp
    have hp' : p ∈ [pyStr "tl0 pl0 tv0 pv0.exr", pyStr "tl1 pl0 tv0 pv0.exr"] := hp
    rcases List.mem_cons.mp hp' with h | h
    · exact Or.inl h
    · exact Or.inr (List.mem_singleton.mp h)
  refine ⟨?_, ?_⟩
  · intro p hp
    rcases hmem2 p hp with rfl | rfl
    · exact ⟨_, rfl⟩
    · exact ⟨_, rfl⟩
  · apply distinct_conditions_index Unit (pyStr "a.zip")
      [pyStr "tl0 pl0 tv0 pv0.exr", pyStr "tl1 pl0 tv0 pv0.exr"]
      (fun _ => []) (fun _ _ => ()) (pyStr ".exr") (pyStr " ")
    · intro p hp
      rcases hmem2 p hp with rfl | rfl
      · exact ⟨_, rfl⟩
      · exact ⟨_, rfl⟩
    · intro p q hp hq hpq
      rcases hmem2 p hp with rfl | rfl <;> rcases hmem2 q hq with rfl | rfl
      · rfl
      · exact absurd (Except.ok.inj hpq) (by decide)
      · exact absurd (Except.ok.inj hpq) (by decide)
      · rfl

/-- C3: for all float literals `sa sb sc sd` (parsing to `a b c d`; float
literal representations contain no space and no slash) and any 4-character
extension, parsing the filename `tl{sa} pl{sb} tv{sc} pv{sd}{ext}` with the
default separator returns exactly the AngleTuple `(a, b, c, d)`, in that
fixed order, never re-sorted. -/
theorem filename_roundtrip (sa sb sc sd ext : PyStr) (a b c d : PyFloat)
    (ha : parseFloat sa = some a) (hb : parseFloat sb = some b)
    (hc : parseFloat sc = some c) (hd : parseFloat sd = some d)
    (hsa1 : ' ' ∉ sa) (hsa2 : '/' ∉ sa)
    (hsb1 : ' ' ∉ sb) (hsb2 : '/' ∉ sb)
    (hsc1 : ' ' ∉ sc) (hsc2 : '/' ∉ sc)
    (hsd1 : ' ' ∉ sd) (hsd2 : '/' ∉ sd)
    (hext : ext.length = 4) (hext2 : '/' ∉ ext) :
    filename_to_angles
      ((('t' :: 'l' :: sa) ++ ' ' :: (('p' :: 'l' :: sb) ++ ' ' ::
        (('t' :: 'v' :: sc) ++ ' ' :: ('p' :: 'v' :: sd)))) ++ ext)
      (pyStr " ") = .ok (a, b, c, d) := by
  set t1 : PyStr := 't' :: 'l' :: sa with ht1
  set t2 : PyStr := 'p' :: 'l' :: sb with ht2
  set t3 : PyStr := 't' :: 'v' :: sc with ht3
  set t4 : PyStr := 'p' :: 'v' :: sd with ht4
  set stem : PyStr := t1 ++ ' ' :: (t2 ++ ' ' :: (t3 ++ ' ' :: t4)) with hstem_def
  have hf_slash : '/' ∉ stem ++ ext := by
    rw [hstem_def, ht1, ht2, ht3, ht4]
    simp only [List.mem_append, List.mem_cons]
    push_neg
    refine ⟨⟨⟨by decide, by decide, hsa2⟩, by decide,
      ⟨by decide, by decide, hsb2⟩, by decide,
      ⟨by decide, by decide, hsc2⟩, by decide, by decide, by decide, hsd2⟩, hext2⟩
  have hseg : pyLast (pySplit (pyStr "/") (stem ++ ext)) = stem ++ ext := by
    show pyLast (pySplit ['/'] (stem ++ ext)) = stem ++ ext
    rw [pySplit_single '/' (stem ++ ext) hf_slash]
    rfl
  have htake : (stem ++ ext).take ((stem ++ ext).length - 4) = stem := by
    rw [List.length_append, hext]
    simp [List.take_left]
  have hsp1 : ' ' ∉ t1 := by
    rw [ht1]
    simp only [List.mem_cons]
    push_neg
    exact ⟨by decide, by decide, hsa1⟩
  have hsp2 : ' ' ∉ t2 := by
    rw [ht2]
    simp only [List.mem_cons]
    push_neg
    exact ⟨by decide, by decide, hsb1⟩
  have hsp3 : ' ' ∉ t3 := by
    rw [ht3]
    simp only [List.mem_cons]
    push_neg
    exact ⟨by decide, by decide, hsc1⟩
  have hsp4 : ' ' ∉ t4 := by
    rw [ht4]
    simp only [List.mem_cons]
    push_neg
    exact ⟨by decide, by decide, hsd1⟩
  have hstem : pySplit [' '] stem = [t1, t2, t3, t4] := by
    rw [hstem_def, pySplit_sep ' ' t1 _ hsp1, pySplit_sep ' ' t2 _ hsp2,
      pySplit_sep ' ' t3 _ hsp3, pySplit_single ' ' t4 hsp4]
  have htok : angleTokens (stem ++ ext) (pyStr " ") = [t1, t2, t3, t4] := by
    unfold angleTokens
    rw [hseg, htake]
    show pySplit [' '] stem = [t1, t2, t3, t4]
    exact hstem
  simp only [filename_to_angles, htok,
    parseAngleAt_some [t1, t2, t3, t4] 0 a (by simp) (by exact ha),
    parseAngleAt_some [t1, t2, t3, t4] 1 b (by simp) (by exact hb),
    parseAngleAt_some [t1, t2, t3, t4] 2 c (by simp) (by exact hc),
    parseAngleAt_some [t1, t2, t3, t4] 3 d (by simp) (by exact hd)]
  rfl

/-- Witness for `filename_roundtrip`: the filename
`tl20.25 pl10 tv11.5 pv0.exr` parses to `(20.25, 10, 11.5, 0)`. -/
theorem filename_roundtrip_witness :
    parseFloat (pyStr "20.25") = some ⟨2025, 2⟩
    ∧ parseFloat (pyStr "10") = some ⟨10, 0⟩
    ∧ parseFloat (pyStr "11.5") = some ⟨115, 1⟩
    ∧ parseFloat (pyStr "0") = some ⟨0, 0⟩
    ∧ filename_to_angles (pyStr "tl20.25 pl10 tv11.5 pv0.exr") (pyStr " ")
      = .ok (⟨2025, 2⟩, ⟨10, 0⟩, ⟨115, 1⟩, ⟨0, 0⟩) :=
  ⟨rfl, rfl, rfl, rfl,
    filename_roundtrip (pyStr "20.25") (pyStr "10") (pyStr "11.5") (pyStr "0")
      (pyStr ".exr") ⟨2025, 2⟩ ⟨10, 0⟩ ⟨115, 1⟩ ⟨0, 0⟩ rfl rfl rfl rfl
      (by decide) (by decide) (by decide) (by decide) (by decide) (by decide)
      (by decide) (by decide) (by decide) (by decide)⟩

/-- Witness for `extension_strip_is_fixed_four` at the default `.exr`. -/
theorem extension_strip_is_fixed_four_witness :
    (pyStr ".exr").length = 4
    ∧ filename_to_angles_specExt (pyStr ".exr") (pyStr "tl1 pl2 tv3 pv4.exr") (pyStr " ")
      = filename_to_angles (pyStr "tl1 pl2 tv3 pv4.exr") (pyStr " ") :=
  ⟨by decide, extension_strip_is_fixed_four (pyStr ".exr") (pyStr "tl1 pl2 tv3 pv4.exr")
    (pyStr " ") (by decide)⟩

end Btf
